import Mathlib

/-!
Verification of the wrench schema-migration engine core.

The Go sources are shallowly embedded: strings are `List Char` (Go iterates
runes in the relevant functions), fallible functions return `Except`,
the migration tracking tables are explicit record states, and the external
Cloud Spanner client is an oracle parameter.
-/

namespace Wrench

/-- Decidable equality for `Except` results, used to evaluate the embedded
functions at concrete inputs. -/
instance {ε α : Type} [DecidableEq ε] [DecidableEq α] : DecidableEq (Except ε α)
  | .ok a, .ok b =>
    if h : a = b then .isTrue (by rw [h]) else .isFalse (by simp [h])
  | .error a, .error b =>
    if h : a = b then .isTrue (by rw [h]) else .isFalse (by simp [h])
  | .ok _, .error _ => .isFalse nofun
  | .error _, .ok _ => .isFalse nofun

/-- Space characters of Go `unicode.IsSpace` (the set trimmed by
`strings.TrimSpace`): Latin-1 spaces plus the Unicode `White_Space` runes. -/
def goIsSpace (c : Char) : Bool :=
  c = ' ' ∨ c = '\t' ∨ c = '\n' ∨ c = (Char.ofNat 11) ∨ c = (Char.ofNat 12) ∨
  c = '\r' ∨ c = (Char.ofNat 0x85) ∨ c = (Char.ofNat 0xA0) ∨
  c = (Char.ofNat 0x1680) ∨ (0x2000 ≤ c.toNat ∧ c.toNat ≤ 0x200A) ∨
  c = (Char.ofNat 0x2028) ∨ c = (Char.ofNat 0x2029) ∨ c = (Char.ofNat 0x202F) ∨
  c = (Char.ofNat 0x205F) ∨ c = (Char.ofNat 0x3000)

/-- Go `strings.TrimSpace`: drop leading and trailing space characters. -/
def goTrimSpace (l : List Char) : List Char :=
  ((l.dropWhile goIsSpace).reverse.dropWhile goIsSpace).reverse

/-- Go `bytes.Split` / `strings.Split` on a one-character separator:
split at every occurrence of `sep`; the separators are not kept, and the
number of pieces is the number of separators plus one. -/
def splitOnChar (sep : Char) : List Char → List (List Char)
  | [] => [[]]
  | c :: rest =>
    if c = sep then
      [] :: splitOnChar sep rest
    else
      match splitOnChar sep rest with
      | [] => [[c]]
      | piece :: pieces => (c :: piece) :: pieces

/-- Go `strings.Contains` (`pat` a fixed pattern). -/
def containsSub (pat : List Char) : List Char → Bool
  | l@(_ :: t) => pat.isPrefixOf l || containsSub pat t
  | [] => pat.isEmpty

/-- The part of `l` before the first occurrence of `pat` (Go
`strings.Cut`'s `before`; the whole list when `pat` does not occur). -/
def cutBeforeSub (pat : List Char) : List Char → List Char
  | l@(c :: t) => if pat.isPrefixOf l then [] else c :: cutBeforeSub pat t
  | [] => []

/-- Trailing-`;` strip performed at the end of `removeCommentsAndTrim`:
`if len(trimmed) > 0 && trimmed[len(trimmed)-1] == ';'` drop that byte. -/
def stripTrailingSemicolon (l : List Char) : List Char :=
  if l.getLast? = some ';' then l.dropLast else l

/-!
## SQL tokenizer (`removeCommentsAndTrim`, migrations.go)

The Go function scans the rune slice with an index and the six mutable
state variables `isInQuoted`, `isInSingleLineComment`, `isInMultiLineComment`,
`startQuote`, `lastCharWasEscapeChar`, `isTripleQuoted`, appending output
runes to a builder.  The embedding passes the six variables as arguments and
builds the output through `Except.map`; each branch consumes exactly the
runes the Go loop consumes before the next iteration.
-/

/-- One iteration of the `removeCommentsAndTrim` scanning loop.  Given the
six state variables, the current rune `c` and the remaining runes `rest`
(the lookahead `runes[index+1:]`), it either fails on a bare newline in a
non-triple-quoted literal, or reports the runes written during the
iteration, how many lookahead runes the iteration consumed beyond `c`
(the Go `index += 1` / `+= 2` adjustments), and the new state.  The
branches follow the Go body line by line. -/
inductive RcatStep where
  | fail
  | next (written : List Char) (skip : Nat) (q slc mlc : Bool) (sq : Char)
      (esc triple : Bool)
deriving DecidableEq

/-- Lookahead test: the next rune equals `x` (Go
`len(runes) > index+1 && runes[index+1] == x`). -/
def headIs (x : Char) : List Char → Bool
  | c :: _ => c = x
  | [] => false

/-- Body of the `removeCommentsAndTrim` loop (one iteration). -/
def rcatStep (q slc mlc : Bool) (sq : Char) (esc triple : Bool) (c : Char)
    (rest : List Char) : RcatStep :=
  if q then
    if (c = '\n' ∨ c = '\r') ∧ ¬triple then .fail
    else if c = sq then
      if esc then .next [c] 0 true slc mlc sq false triple
      else if triple then
        match rest with
        | c2 :: c3 :: _ =>
          if c2 = sq ∧ c3 = sq then
            .next [c, c, c] 2 false slc mlc (Char.ofNat 0) esc false
          else .next [c] 0 true slc mlc sq esc true
        | _ => .next [c] 0 true slc mlc sq esc true
      else .next [c] 0 false slc mlc (Char.ofNat 0) esc false
    else if c = '\\' then .next [c] 0 true slc mlc sq true triple
    else .next [c] 0 true slc mlc sq false triple
  else if slc then
    if c = '\n' then .next [c] 0 false false mlc sq esc triple
    else .next [] 0 false true mlc sq esc triple
  else if mlc then
    if c = '*' ∧ headIs '/' rest then
      .next [] 1 false slc false sq esc triple
    else .next [] 0 false slc true sq esc triple
  else
    if c = '#' ∨ (c = '-' ∧ headIs '-' rest) then
      .next [] 0 false true false sq esc triple
    else if c = '/' ∧ headIs '*' rest then
      .next [] 1 false slc true sq esc triple
    else if c = '\'' ∨ c = '"' ∨ c = '`' then
      match rest with
      | c2 :: c3 :: _ =>
        if c2 = c ∧ c3 = c then .next [c, c, c] 2 true slc mlc c esc true
        else .next [c] 0 true slc mlc c esc false
      | _ => .next [c] 0 true slc mlc c esc false
    else .next [c] 0 false slc mlc sq esc triple

/-- Scanning loop of `removeCommentsAndTrim`: run `rcatStep` on each rune,
consuming the extra lookahead runes it reports; at end of input fail when
still inside a quoted region.  `Except.error ()` models the
`statement contains an unclosed literal` error.  The flags are, in order,
`isInQuoted`, `isInSingleLineComment`, `isInMultiLineComment`,
`startQuote`, `lastCharWasEscapeChar`, `isTripleQuoted`.  (`rcatStep`
never reports more lookahead runes than `rest` holds; the final match arm
is unreachable.) -/
def rcatLoop (q slc mlc : Bool) (sq : Char) (esc triple : Bool) :
    List Char → Except Unit (List Char)
  | [] => if q then .error () else .ok []
  | c :: rest =>
    match rcatStep q slc mlc sq esc triple c rest with
    | .fail => .error ()
    | .next w skip q1 slc1 mlc1 sq1 esc1 triple1 =>
      match skip with
      | 0 => (rcatLoop q1 slc1 mlc1 sq1 esc1 triple1 rest).map (w ++ ·)
      | 1 =>
        match rest with
        | _ :: r1 => (rcatLoop q1 slc1 mlc1 sq1 esc1 triple1 r1).map (w ++ ·)
        | [] => (rcatLoop q1 slc1 mlc1 sq1 esc1 triple1 []).map (w ++ ·)
      | _ + 2 =>
        match rest with
        | _ :: _ :: r2 => (rcatLoop q1 slc1 mlc1 sq1 esc1 triple1 r2).map (w ++ ·)
        | _ :: r1 => (rcatLoop q1 slc1 mlc1 sq1 esc1 triple1 r1).map (w ++ ·)
        | [] => (rcatLoop q1 slc1 mlc1 sq1 esc1 triple1 []).map (w ++ ·)

/-- `removeCommentsAndTrim` (migrations.go): strip comments, fail on
unclosed literals, trim surrounding whitespace and a trailing `;`. -/
def removeCommentsAndTrim (sql : List Char) : Except Unit (List Char) :=
  (rcatLoop false false false (Char.ofNat 0) false false sql).map fun res =>
    stripTrailingSemicolon (goTrimSpace res)

/-- `toStatements` (migrations.go): split the file at every `;` byte,
run `removeCommentsAndTrim` on each piece, and keep the non-empty results. -/
def toStatements (file : List Char) : Except Unit (List (List Char)) :=
  go (splitOnChar ';' file)
where
  go : List (List Char) → Except Unit (List (List Char))
    | [] => .ok []
    | piece :: pieces => do
      let statement ← removeCommentsAndTrim piece
      let rest ← go pieces
      pure (if statement = [] then rest else statement :: rest)

/-!
## Spec-side tokenizer

The specification describes the tokenizer as a single-pass scan over the
whole file with mutually exclusive states, in which statements are
delimited by `;` at the top level (not inside any quoted or commented
region), comments are stripped, each statement is trimmed and empty
results are discarded.  The following definitions follow those words; they
are compared against the source's `toStatements` above.
-/

/-- Mutually exclusive scanner states named by the spec: Normal,
InSingleLineComment, InBlockComment, InQuoted / InTripleQuoted (with the
opening delimiter and a pending-escape flag). -/
inductive ScanMode where
  | normal
  | lineComment
  | blockComment
  | quoted (startQuote : Char) (triple : Bool) (escaped : Bool)
deriving DecidableEq

/-- Quote delimiters recognised by the spec: `'`, `"`, or backtick. -/
def isQuoteChar (c : Char) : Bool := c = '\'' ∨ c = '"' ∨ c = '`'

/-- One spec-side scanning step, by the spec's rules: `--` or `#` opens a
line comment ended by a newline, `/*` opens a block comment ended by `*/`,
a quote character opens a (possibly triple) quoted region, a backslash
escapes the next quote except inside triple-quoted regions where only the
triple delimiter ends the literal, a bare newline or carriage return
inside a non-triple-quoted literal fails, and a `;` in the normal state
delimits statements.  The step reports the characters kept, whether a new
statement starts, how many lookahead characters are consumed, and the
next mode. -/
inductive SpecStep where
  | fail
  | emit (written : List Char) (newStatement : Bool) (skip : Nat) (mode : ScanMode)
deriving DecidableEq

/-- Spec-side transition function. -/
def specStep (m : ScanMode) (c : Char) (rest : List Char) : SpecStep :=
  match m with
  | .quoted sq triple esc =>
    if (c = '\n' ∨ c = '\r') ∧ ¬triple then .fail
    else if triple then
      if c = sq then
        match rest with
        | c2 :: c3 :: _ =>
          if c2 = sq ∧ c3 = sq then .emit [c, c, c] false 2 .normal
          else .emit [c] false 0 (.quoted sq true esc)
        | _ => .emit [c] false 0 (.quoted sq true esc)
      else .emit [c] false 0 (.quoted sq true esc)
    else if c = sq then
      if esc then .emit [c] false 0 (.quoted sq false false)
      else .emit [c] false 0 .normal
    else if c = '\\' then .emit [c] false 0 (.quoted sq false true)
    else .emit [c] false 0 (.quoted sq false false)
  | .lineComment =>
    if c = '\n' then .emit [c] false 0 .normal
    else .emit [] false 0 .lineComment
  | .blockComment =>
    if c = '*' ∧ headIs '/' rest then
      .emit [] false 1 .normal
    else .emit [] false 0 .blockComment
  | .normal =>
    if c = ';' then .emit [] true 0 .normal
    else if c = '#' ∨ (c = '-' ∧ headIs '-' rest) then
      .emit [] false 0 .lineComment
    else if c = '/' ∧ headIs '*' rest then
      .emit [] false 1 .blockComment
    else if c = '\'' ∨ c = '"' ∨ c = '`' then
      match rest with
      | c2 :: c3 :: _ =>
        if c2 = c ∧ c3 = c then .emit [c, c, c] false 2 (.quoted c true false)
        else .emit [c] false 0 (.quoted c false false)
      | _ => .emit [c] false 0 (.quoted c false false)
    else .emit [c] false 0 .normal

/-- Spec-side failure predicate: the input contains a bare newline or
carriage return inside a non-triple-quoted string literal, or it ends
while still inside a quoted region. -/
def specUnclosedLiteral : ScanMode → List Char → Bool
  | m, [] => match m with | .quoted _ _ _ => true | _ => false
  | m, c :: rest =>
    match specStep m c rest with
    | .fail => true
    | .emit _ _ skip m1 =>
      match skip with
      | 0 => specUnclosedLiteral m1 rest
      | 1 =>
        match rest with
        | _ :: r1 => specUnclosedLiteral m1 r1
        | [] => specUnclosedLiteral m1 []
      | _ + 2 =>
        match rest with
        | _ :: _ :: r2 => specUnclosedLiteral m1 r2
        | _ :: r1 => specUnclosedLiteral m1 r1
        | [] => specUnclosedLiteral m1 []

/-- Prepend kept characters to the statement currently being scanned. -/
def consCurrent (w : List Char) : List (List Char) → List (List Char)
  | [] => [w]
  | piece :: pieces => (w ++ piece) :: pieces

/-- Spec-side scan: strip comments and split at every `;` that occurs at
the top level, i.e. not inside any quoted or commented region; fail on
unclosed literals. -/
def specScan : ScanMode → List Char → Except Unit (List (List Char))
  | m, [] => match m with | .quoted _ _ _ => .error () | _ => .ok [[]]
  | m, c :: rest =>
    match specStep m c rest with
    | .fail => .error ()
    | .emit w newStatement skip m1 =>
      let push : List (List Char) → List (List Char) := fun ps =>
        if newStatement then [] :: ps else consCurrent w ps
      match skip with
      | 0 => (specScan m1 rest).map push
      | 1 =>
        match rest with
        | _ :: r1 => (specScan m1 r1).map push
        | [] => (specScan m1 []).map push
      | _ + 2 =>
        match rest with
        | _ :: _ :: r2 => (specScan m1 r2).map push
        | _ :: r1 => (specScan m1 r1).map push
        | [] => (specScan m1 []).map push

/-- Spec-side tokenizer contract: statements delimited by top-level `;`,
comments stripped, each statement trimmed, empty results discarded. -/
def specTopLevelStatements (file : List Char) : Except Unit (List (List Char)) :=
  (specScan .normal file).map fun pieces =>
    (pieces.map goTrimSpace).filter (· ≠ [])

/-- Scanning step with the escape rule the code actually implements: like
`specStep`, except that a backslash pends an escape inside a triple-quoted
literal too, and a quote so escaped is consumed without being considered
as the start of the closing triple delimiter.  (The spec instead says the
escape does not apply inside triple-quoted regions.) -/
def goEscapeStep (m : ScanMode) (c : Char) (rest : List Char) : SpecStep :=
  match m with
  | .quoted sq triple esc =>
    if (c = '\n' ∨ c = '\r') ∧ ¬triple then .fail
    else if c = sq then
      if esc then .emit [c] false 0 (.quoted sq triple false)
      else if triple then
        match rest with
        | c2 :: c3 :: _ =>
          if c2 = sq ∧ c3 = sq then .emit [c, c, c] false 2 .normal
          else .emit [c] false 0 (.quoted sq true esc)
        | _ => .emit [c] false 0 (.quoted sq true esc)
      else .emit [c] false 0 .normal
    else if c = '\\' then .emit [c] false 0 (.quoted sq triple true)
    else .emit [c] false 0 (.quoted sq triple false)
  | .lineComment =>
    if c = '\n' then .emit [c] false 0 .normal
    else .emit [] false 0 .lineComment
  | .blockComment =>
    if c = '*' ∧ headIs '/' rest then
      .emit [] false 1 .normal
    else .emit [] false 0 .blockComment
  | .normal =>
    if c = ';' then .emit [] true 0 .normal
    else if c = '#' ∨ (c = '-' ∧ headIs '-' rest) then
      .emit [] false 0 .lineComment
    else if c = '/' ∧ headIs '*' rest then
      .emit [] false 1 .blockComment
    else if c = '\'' ∨ c = '"' ∨ c = '`' then
      match rest with
      | c2 :: c3 :: _ =>
        if c2 = c ∧ c3 = c then .emit [c, c, c] false 2 (.quoted c true false)
        else .emit [c] false 0 (.quoted c false false)
      | _ => .emit [c] false 0 (.quoted c false false)
    else .emit [c] false 0 .normal

/-- Failure predicate with the code's escape rule: the input contains a
bare newline or carriage return inside a non-triple-quoted string literal,
or it ends while still inside a quoted region, where quoted regions are
tracked by `goEscapeStep` (so a backslash inside a triple-quoted literal
escapes an immediately following quote). -/
def goEscapeUnclosedLiteral : ScanMode → List Char → Bool
  | m, [] => match m with | .quoted _ _ _ => true | _ => false
  | m, c :: rest =>
    match goEscapeStep m c rest with
    | .fail => true
    | .emit _ _ skip m1 =>
      match skip with
      | 0 => goEscapeUnclosedLiteral m1 rest
      | 1 =>
        match rest with
        | _ :: r1 => goEscapeUnclosedLiteral m1 r1
        | [] => goEscapeUnclosedLiteral m1 []
      | _ + 2 =>
        match rest with
        | _ :: _ :: r2 => goEscapeUnclosedLiteral m1 r2
        | _ :: r1 => goEscapeUnclosedLiteral m1 r1
        | [] => goEscapeUnclosedLiteral m1 []

/-!
## Statement classifier (migrations.go)
-/

/-- `StatementKind` values produced by the program (`"DDL"`, `"DML"`,
`"PartitionedDML"`). -/
inductive StatementKind where
  | ddl
  | dml
  | partitionedDML
deriving DecidableEq

/-- Whitespace class `[\t\n\f\r ]` of `dmlAnyRegex`. -/
def dmlWsChar (c : Char) : Bool :=
  c = '\t' ∨ c = '\n' ∨ c = (Char.ofNat 12) ∨ c = '\r' ∨ c = ' '

/-- `isDMLAny`: the statement matches
`^(UPDATE|DELETE|INSERT)[\t\n\f\r ].*`, i.e. it starts with one of the
three six-letter keywords followed by one of the listed whitespace
characters. -/
def isDMLAny (s : List Char) : Bool :=
  ("UPDATE".toList.isPrefixOf s || "DELETE".toList.isPrefixOf s ||
    "INSERT".toList.isPrefixOf s) &&
  (match s.drop 6 with
   | c :: _ => dmlWsChar c
   | [] => false)

/-- Second alternative of `notPartitionedDmlRegex`: some position starts
with `update` or `delete` (case already folded) and is followed, anywhere
later, by `select` (the regex has the `s` flag, so `.*` crosses lines). -/
def updateDeleteThenSelect : List Char → Bool
  | [] => false
  | c :: rest =>
    (("update".toList.isPrefixOf (c :: rest) ∨
        "delete".toList.isPrefixOf (c :: rest)) ∧
      containsSub "select".toList ((c :: rest).drop 6)) ∨
    updateDeleteThenSelect rest

/-- `notPartitionedDmlRegex` match: `(?is)(?:insert)|(?:update|delete).*select`.
Case-insensitivity is modelled by per-character lowering (the statements in
question are ASCII SQL keywords). -/
def notPartitionedDml (s : List Char) : Bool :=
  let l := s.map Char.toLower
  containsSub "insert".toList l ∨ updateDeleteThenSelect l

/-- `isPartitionedDMLOnly` (migrations.go). -/
def isPartitionedDMLOnly (s : List Char) : Bool :=
  isDMLAny s ∧ ¬notPartitionedDml s

/-- `getStatementKind` (migrations.go). -/
def getStatementKind (s : List Char) : StatementKind :=
  if isPartitionedDMLOnly s then .partitionedDML
  else if isDMLAny s then .dml
  else .ddl

/-- `inspectStatementsKind` (migrations.go): count each kind as the Go
`kindMap` does, then test the `distinctKind` conditions in source order.
`Except.error ()` models the `Cannot specify DDL and DML in the same
migration file` error. -/
def inspectStatementsKind (statements : List (List Char))
    (detectPartitionedDML : Bool) : Except Unit StatementKind :=
  let cDDL := statements.countP (fun s => getStatementKind s = .ddl)
  let cDML := statements.countP (fun s => getStatementKind s = .dml)
  let cPDML := statements.countP (fun s => getStatementKind s = .partitionedDML)
  let total := cDDL + cDML + cPDML
  if cDDL = total then .ok .ddl
  else if ¬detectPartitionedDML ∧ cDML + cPDML = total then .ok .dml
  else if detectPartitionedDML ∧ cDML = total then .ok .dml
  else if detectPartitionedDML ∧ cPDML = total then .ok .partitionedDML
  else .error ()

/-!
## Directive parser (`parseMigrationDirectives`, `extractPreamble`)
-/

/-- Word character of the Go regexp class `\w`. -/
def isWordChar (c : Char) : Bool := c.isAlpha ∨ c.isDigit ∨ c = '_'

/-- Name character of `MigrationNameRegex` (`[a-zA-Z0-9_\-]`). -/
def isNameChar (c : Char) : Bool := c.isAlpha ∨ c.isDigit ∨ c = '_' ∨ c = '-'

/-- One step of `extractPreamble`'s loop over the lines of the migration
file.  The boolean is the `blockComment` flag; the result is the list of
captured comment lines (the Go `comments` slice). -/
def preambleLines : List (List Char) → Bool → List (List Char)
  | [], _ => []
  | line :: rest, blockComment =>
    let line := goTrimSpace line
    if line = [] then preambleLines rest blockComment
    else
      let step : Option (Bool × List Char) :=
        if ¬blockComment then
          if "/*".toList.isPrefixOf line then some (true, line.drop 2)
          else if "--".toList.isPrefixOf line then some (blockComment, line.drop 2)
          else if "#".toList.isPrefixOf line then some (blockComment, line.drop 1)
          else none
        else some (blockComment, line)
      match step with
      | none => []
      | some (bc, line) =>
        let (bc, line) :=
          if bc ∧ containsSub "*/".toList line then
            (false, cutBeforeSub "*/".toList line)
          else (bc, line)
        let line := goTrimSpace line
        if line = [] then preambleLines rest bc
        else line :: preambleLines rest bc

/-- `extractPreamble` (migrations.go): all comments from the start of a
migration file until the first non-empty non-comment line, joined by
newlines. -/
def extractPreamble (migration : List Char) : List Char :=
  List.intercalate ['\n'] (preambleLines (splitOnChar '\n' migration) false)

/-- Match of `directiveRegex` (`(?m)^\s*@wrench[.](?P<Key>\w+)=(?P<Value>\w+)`)
against one (already trimmed) preamble line, returning the Key and Value
groups.  Trailing content after the value is ignored, as in the source. -/
def parseDirectiveLine (line : List Char) : Option (List Char × List Char) :=
  if "@wrench.".toList.isPrefixOf line then
    let rest := line.drop 8
    let key := rest.takeWhile isWordChar
    if key = [] then none
    else
      match rest.drop key.length with
      | '=' :: afterEq =>
        let val := afterEq.takeWhile isWordChar
        if val = [] then none else some (key, val)
      | _ => none
  else none

/-- `MigrationDirectives` (migrations.go): the revision in the tree holds
only the unreleased `placeholder` directive value. -/
structure MigrationDirectives where
  placeholder : List Char := []
deriving DecidableEq

/-- Directive dispatch loop of `parseMigrationDirectives`: the only
recognised key is the placeholder key `TODO`; any other key fails with the
`unknown migration directive` error, modelled as `Except.error ()`. -/
def applyDirectives : List (List Char × List Char) → MigrationDirectives →
    Except Unit MigrationDirectives
  | [], d => .ok d
  | (key, val) :: rest, d =>
    if key = "TODO".toList then applyDirectives rest { d with placeholder := val }
    else .error ()

/-- `parseMigrationDirectives` (migrations.go): extract `@wrench.Key=Value`
directives from the migration preamble and dispatch on the key. -/
def parseMigrationDirectives (migration : List Char) :
    Except Unit MigrationDirectives :=
  let directiveMatches :=
    ((splitOnChar '\n' (extractPreamble migration)).map parseDirectiveLine).reduceOption
  applyDirectives directiveMatches {}

/-!
## Migration loader (`LoadMigrations`, migrations.go)

The directory is abstracted as the listing `os.ReadDir` returns: a list of
entries with a name, a directory flag, and the file contents
(`content = none` models an `os.ReadFile` error).
-/

/-- One entry of the migration directory. -/
structure DirEntry where
  name : List Char
  isDir : Bool := false
  content : Option (List Char)
deriving DecidableEq

/-- A parsed migration file (`Migration`, migrations.go). -/
structure Migration where
  version : Nat
  name : List Char
  fileName : List Char
  statements : List (List Char)
  kind : StatementKind
  directives : MigrationDirectives
deriving DecidableEq

/-- Errors surfaced by `LoadMigrations`. -/
inductive LoadError where
  | unclosedLiteral
  | mixedKinds
  | unknownDirective
  | duplicateVersion
deriving DecidableEq

/-- Numeric value of a digit string (`strconv.ParseUint` body). -/
def digitsToNat (digits : List Char) : Nat :=
  digits.foldl (fun acc c => 10 * acc + (c.toNat - '0'.toNat)) 0

/-- Match of the anchored `migrationFileRegex`
`^([0-9]+)(?:_([a-zA-Z0-9_\-]+))?(?:[.]up|[.]generated)?\.sql$`, returning
the digit and name capture groups.  The groups are separated by characters
outside their classes, so greedy matching is forced and the decomposition
is unique. -/
def matchMigrationFileName (name : List Char) : Option (List Char × List Char) :=
  let digits := name.takeWhile Char.isDigit
  if digits = [] then none
  else
    let r1 := name.drop digits.length
    let withSuffixCheck :
        List Char × List Char → List Char → Option (List Char × List Char) :=
      fun group rem =>
        if rem = ".sql".toList ∨ rem = ".up.sql".toList ∨
            rem = ".generated.sql".toList then
          some group
        else none
    match r1 with
    | '_' :: r2 =>
      let nm := r2.takeWhile isNameChar
      if nm = [] then none
      else withSuffixCheck (digits, nm) (r2.drop nm.length)
    | _ => withSuffixCheck (digits, []) r1

/-- Collection loop of `LoadMigrations`: directories, non-matching names,
versions that overflow `uint64`, skipped versions and unreadable files are
silently skipped (`continue`); tokenizer, classifier and directive errors
abort the whole load. -/
def collectMigrations (toSkip : List Nat) (detectPartitionedDML : Bool) :
    List DirEntry → Except LoadError (List Migration)
  | [] => .ok []
  | f :: fs =>
    if f.isDir then collectMigrations toSkip detectPartitionedDML fs
    else
      match matchMigrationFileName f.name with
      | none => collectMigrations toSkip detectPartitionedDML fs
      | some (digits, nm) =>
        let version := digitsToNat digits
        if version ≥ 2 ^ 64 then collectMigrations toSkip detectPartitionedDML fs
        else if toSkip.contains version then
          collectMigrations toSkip detectPartitionedDML fs
        else
          match f.content with
          | none => collectMigrations toSkip detectPartitionedDML fs
          | some file => do
            let statements ←
              (toStatements file).mapError fun _ => LoadError.unclosedLiteral
            let kind ←
              (inspectStatementsKind statements detectPartitionedDML).mapError
                fun _ => LoadError.mixedKinds
            let directives ←
              (parseMigrationDirectives file).mapError
                fun _ => LoadError.unknownDirective
            let rest ← collectMigrations toSkip detectPartitionedDML fs
            .ok ({ version := version, name := nm, fileName := f.name,
                   statements := statements, kind := kind,
                   directives := directives } :: rest)

/-- Ordered insertion used to model `sort.Sort(migrations)` with
`Less i j ↔ version i < version j`. -/
def insertByVersion (m : Migration) : List Migration → List Migration
  | [] => [m]
  | x :: xs =>
    if m.version ≤ x.version then m :: x :: xs else x :: insertByVersion m xs

/-- Sort of the collected migrations by ascending version.  `sort.Sort` is
unstable, but whenever its result is returned the versions are distinct, so
every sorted permutation coincides with this one. -/
def sortByVersion (ms : List Migration) : List Migration :=
  ms.foldr insertByVersion []

/-- `LoadMigrations` (migrations.go): collect, sort by version, and fail
with the duplicate-version error when two accepted files share a version. -/
def LoadMigrations (files : List DirEntry) (toSkip : List Nat)
    (detectPartitionedDML : Bool) : Except LoadError (List Migration) := do
  let migrations ← collectMigrations toSkip detectPartitionedDML files
  let sorted := sortByVersion migrations
  if (sorted.map (·.version)).Nodup then .ok sorted
  else .error .duplicateVersion

/-!
## `CreateMigrationFile` (core package)
-/

/-- `roundNext` (core package):
`uint(math.Round(float64(n)/float64(next)))*next + next`.  For the version
magnitudes representable here (far below `2^52`) the float computation is
exact, and round-half-away-from-zero of `n / next` is
`(2 * n + next) / (2 * next)` in integer division. -/
def roundNext (n next : Nat) : Nat :=
  (2 * n + next) / (2 * next) * next + next

/-- Decimal digits of a number, as printed by `%d`. -/
def natToDigits (v : Nat) : List Char := (Nat.repr v).toList

/-- `fmt.Sprintf("%0*d", width, v)`: left-pad the decimal form with zeros. -/
def zeroPad (width : Nat) (v : Nat) : List Char :=
  let s := natToDigits v
  List.replicate (width - s.length) '0' ++ s

/-- `CreateMigrationFile` (core package) with the sequence options already
applied (`Interval`, `ZeroPrefixLength`).  The name must match the
unanchored `MigrationNameRegex` when non-empty; the new version is 1 for an
empty migration list and otherwise rounds the last (largest) version up to
the next interval.  The returned value is the created file name
(`filepath.Join` with an empty directory path returns the bare name). -/
def CreateMigrationFile (files : List DirEntry) (name : List Char)
    (interval : Nat) (zeroPrefixLength : Nat) : Except Unit (List Char) := do
  if name ≠ [] ∧ ¬name.any isNameChar then .error ()
  else
    let ms ← (LoadMigrations files [] false).mapError fun _ => ()
    let v : Nat :=
      match ms.getLast? with
      | some m => roundNext m.version interval
      | none => 1
    let vStr := zeroPad zeroPrefixLength v
    if name = [] then .ok (vStr ++ ".sql".toList)
    else .ok (vStr ++ '_' :: name ++ ".sql".toList)

/-!
## Migration tracking tables (client.go)

The version table and the history table are modelled as row lists; the
history primary key makes row versions unique in any state the program
creates, which theorems take as a hypothesis where needed.  Timestamps are
opaque `Nat` commit-timestamp values.
-/

/-- Row of the single-row version table (`Version INT64, Dirty BOOL`). -/
structure VersionRow where
  version : Int
  dirty : Bool
deriving DecidableEq

/-- Row of the history table (`MigrationHistoryRecord`). -/
structure HistoryRow where
  version : Int
  dirty : Bool
  created : Nat
  modified : Nat
deriving DecidableEq

/-- State of the two migration tracking tables. -/
structure MigrationDb where
  version : List VersionRow
  history : List HistoryRow
deriving DecidableEq

/-- Ordered insertion by history version, modelling `order by version`. -/
def insertHistoryByVersion (r : HistoryRow) : List HistoryRow → List HistoryRow
  | [] => [r]
  | x :: xs =>
    if r.version ≤ x.version then r :: x :: xs else x :: insertHistoryByVersion r xs

/-- Sort of history rows by ascending version. -/
def sortHistoryByVersion (rows : List HistoryRow) : List HistoryRow :=
  rows.foldr insertHistoryByVersion []

/-- `setSchemaVersionMutations` (client.go): delete every version-table row
and insert the single row `(version, dirty)`. -/
def setSchemaVersionMutations (version : Int) (dirty : Bool) : List VersionRow :=
  [{ version := version, dirty := dirty }]

/-- `resetSchemaVersion` (client.go): read
`select * from history where dirty = FALSE order by version limit 1` and
build the version-table mutations for that row; fail with
`no undirty versions found` when no clean row exists. -/
def resetSchemaVersion (history : List HistoryRow) : Except Unit (List VersionRow) :=
  match (sortHistoryByVersion (history.filter (fun r => !r.dirty))).take 1 with
  | [r] => .ok (setSchemaVersionMutations r.version false)
  | _ => .error ()

/-- `deleteDirtyHistory` (client.go): the delete keys are the versions of
the history rows with `dirty = TRUE`. -/
def deleteDirtyHistory (history : List HistoryRow) : List Int :=
  (history.filter (·.dirty)).map (·.version)

/-- `RepairMigration` (client.go): in one read-write transaction, delete
the dirty history rows by key and reset the version table to the anchor
row.  When the transaction body fails, nothing is applied and both tables
are left unchanged, which the pair result records as the original state
plus the error. -/
def RepairMigration (st : MigrationDb) : MigrationDb × Option Unit :=
  let keys := deleteDirtyHistory st.history
  match resetSchemaVersion st.history with
  | .error _ => (st, some ())
  | .ok versionRows =>
    ({ history := st.history.filter (fun r => !keys.contains r.version),
       version := versionRows }, none)

/-!
## `ExecuteMigrations` (client.go)

The external database work (DDL batches, DML transactions, partitioned
DML) is an oracle: a family of functions from statement lists to either an
error or a row count.  The model additionally returns the list of versions
reported as applied (the `%d/up` prints), which is the observable record
of which migrations executed.
-/

/-- Oracle for the statement-applying client calls made by a migration. -/
structure ExecEnv where
  applyDDL : List (List Char) → Except Unit Unit
  applyDML : List (List Char) → Except Unit Int
  applyPartitionedDML : List (List Char) → Int → Except Unit Int
  commitTs : Nat

/-- Errors of `ExecuteMigrations`; the dirty error names the version the
Go error message prints (`database version: %d is dirty, please fix it.`). -/
inductive ExecError where
  | migrationVersionDirty (version : Int)
  | executeMigrations
deriving DecidableEq

/-- Per-file rows-affected output (`MigrationsOutput`). -/
abbrev MigrationsOutput := List (List Char × Int)

/-- `upsertVersionHistory` (client.go): update the row keyed by `version`
when it exists (refreshing `Modified`), otherwise insert a new row with
commit-timestamped `Created` and `Modified`. -/
def upsertVersionHistory (ts : Nat) (version : Int) (dirty : Bool)
    (history : List HistoryRow) : List HistoryRow :=
  if history.any (·.version = version) then
    history.map fun r =>
      if r.version = version then { r with dirty := dirty, modified := ts } else r
  else
    history ++ [{ version := version, dirty := dirty, created := ts, modified := ts }]

/-- `setSchemaMigrationVersion` (client.go): one transaction that rewrites
the version table to `(version, dirty)` and upserts the history row. -/
def setSchemaMigrationVersion (ts : Nat) (version : Int) (dirty : Bool)
    (st : MigrationDb) : MigrationDb :=
  { version := setSchemaVersionMutations version dirty,
    history := upsertVersionHistory ts version dirty st.history }

/-- Apply loop of `ExecuteMigrations` over the sorted migrations.
`applied` is the set of versions present in history, `count` the number of
migrations applied so far.  The returned triple is the final table state,
the versions printed as applied, and the result. -/
def execMigrationsLoop (env : ExecEnv) (applied : List Int) (limit : Int)
    (partitionedConcurrency : Int) :
    List Migration → MigrationDb → Int → MigrationsOutput → List Nat →
    MigrationDb × List Nat × Except ExecError MigrationsOutput
  | [], st, _, out, log => (st, log, .ok out)
  | m :: ms, st, count, out, log =>
    if limit = 0 then (st, log, .ok out)
    else if applied.contains (m.version : Int) then
      execMigrationsLoop env applied limit partitionedConcurrency ms st count out log
    else
      let st1 := setSchemaMigrationVersion env.commitTs m.version true st
      let afterApply : Except Unit MigrationsOutput :=
        match m.kind with
        | .ddl => (env.applyDDL m.statements).map fun _ => out
        | .dml => (env.applyDML m.statements).map fun rows =>
            out ++ [(m.fileName, rows)]
        | .partitionedDML =>
          (env.applyPartitionedDML m.statements partitionedConcurrency).map
            fun rows => out ++ [(m.fileName, rows)]
      match afterApply with
      | .error _ => (st1, log, .error .executeMigrations)
      | .ok out1 =>
        let log1 := log ++ [m.version]
        let st2 := setSchemaMigrationVersion env.commitTs m.version false st1
        let count1 := count + 1
        if limit > 0 ∧ count1 = limit then (st2, log1, .ok out1)
        else execMigrationsLoop env applied limit partitionedConcurrency ms st2 count1 out1 log1

/-- `ExecuteMigrations` (client.go): sort the migrations, read the current
version row (an absent row is the non-fatal `ErrorCodeNoMigration` and
reads as version 0, clean), fail with the dirty error when the current row
is dirty, load the applied set from history, then run the apply loop. -/
def ExecuteMigrations (env : ExecEnv) (migrations : List Migration)
    (limit : Int) (partitionedConcurrency : Int) (st : MigrationDb) :
    MigrationDb × List Nat × Except ExecError MigrationsOutput :=
  let ms := sortByVersion migrations
  let current : Int × Bool :=
    match st.version with
    | [] => (0, false)
    | r :: _ => (r.version, r.dirty)
  if current.2 then (st, [], .error (.migrationVersionDirty current.1))
  else
    let applied := st.history.map (·.version)
    execMigrationsLoop env applied limit partitionedConcurrency ms st 0 [] []

/-!
## Migration lock (client.go)
-/

/-- The single `ID IS NULL` row of the lock table. -/
structure LockRow where
  lockIdentifier : Option (List Char)
  expiry : Option Nat
deriving DecidableEq

/-- State of the lock table: whether the table exists, and its row. -/
structure LockDb where
  tableExists : Bool
  row : Option LockRow
deriving DecidableEq

/-- `releaseMigrationLock` (client.go): conditional update that clears the
identifier and expiry only when the stored identifier matches. -/
def releaseMigrationLock (st : LockDb) (lockIdentifier : List Char) : LockDb :=
  match st.row with
  | some r =>
    if r.lockIdentifier = some lockIdentifier then
      { st with row := some { lockIdentifier := none, expiry := none } }
    else st
  | none => st

/-- `MigrationLock` (client.go): acquisition result plus the release
handle, modelled as a function on the lock-table state. -/
structure MigrationLock where
  success : Bool
  lockIdentifier : List Char
  expiry : Nat
  release : LockDb → LockDb

/-- `GetMigrationLock` (client.go): when the lock table does not exist the
lock is granted immediately with the initial no-op release; otherwise a
transaction runs the conditional `UPDATE` (a holder can be displaced only
when the identifier is NULL or `now` is past the expiry), reads the row
back, and the release handle becomes `releaseMigrationLock`. -/
def GetMigrationLock (now : Nat) (st : LockDb) (lockIdentifier : List Char) :
    MigrationLock × LockDb × Option Unit :=
  let lock0 : MigrationLock :=
    { success := false, lockIdentifier := [], expiry := 0, release := fun s => s }
  if !st.tableExists then
    ({ lock0 with success := true }, st, none)
  else
    match st.row with
    | none =>
      ({ lock0 with
          release := fun s => releaseMigrationLock s lockIdentifier }, st, none)
    | some r =>
      let canTake : Bool :=
        r.lockIdentifier.isNone ||
          (match r.expiry with
           | some e => decide (now > e)
           | none => false)
      if canTake then
        let r1 : LockRow :=
          { lockIdentifier := some lockIdentifier, expiry := some (now + 30 * 60) }
        ({ success := true, lockIdentifier := lockIdentifier,
           expiry := now + 30 * 60,
           release := fun s => releaseMigrationLock s lockIdentifier },
         { st with row := some r1 }, none)
      else
        ({ success := false, lockIdentifier := r.lockIdentifier.getD [],
           expiry := r.expiry.getD 0,
           release := fun s => releaseMigrationLock s lockIdentifier }, st, none)

end Wrench
namespace Wrench

lemma kindCount_partition (l : List (List Char)) :
    l.countP (fun s => getStatementKind s = .ddl) +
      l.countP (fun s => getStatementKind s = .dml) +
      l.countP (fun s => getStatementKind s = .partitionedDML) = l.length := by
  induction l with
  | nil => simp
  | cons s l ih =>
    simp only [List.countP_cons, List.length_cons]
    cases h : getStatementKind s <;> simp [h] <;> omega

lemma countP_kind_eq_length_iff (l : List (List Char)) (k : StatementKind) :
    l.countP (fun s => getStatementKind s = k) = l.length ↔
      ∀ s ∈ l, getStatementKind s = k := by
  rw [List.countP_eq_length]
  constructor
  · intro h s hs; simpa using h s hs
  · intro h s hs; simpa using h s hs

lemma countP_kind_eq_zero_iff (l : List (List Char)) (k : StatementKind) :
    l.countP (fun s => getStatementKind s = k) = 0 ↔
      ∀ s ∈ l, getStatementKind s ≠ k := by
  rw [List.countP_eq_zero]
  constructor
  · intro h s hs; simpa using h s hs
  · intro h s hs; simpa using h s hs

lemma exists_kind_iff (l : List (List Char)) (k : StatementKind) :
    (∃ s ∈ l, getStatementKind s = k) ↔
      0 < l.countP (fun s => getStatementKind s = k) := by
  rw [List.countP_pos_iff]
  constructor
  · rintro ⟨s, hs, h⟩; exact ⟨s, hs, by simpa using h⟩
  · rintro ⟨s, hs, h⟩; exact ⟨s, hs, by simpa using h⟩

lemma exists_not_ddl_iff (l : List (List Char)) :
    (∃ s ∈ l, getStatementKind s ≠ .ddl) ↔
      0 < l.countP (fun s => getStatementKind s = .dml) +
          l.countP (fun s => getStatementKind s = .partitionedDML) := by
  constructor
  · rintro ⟨s, hs, h⟩
    cases hk : getStatementKind s with
    | ddl => exact absurd hk h
    | dml =>
      have := (exists_kind_iff l .dml).mp ⟨s, hs, hk⟩; omega
    | partitionedDML =>
      have := (exists_kind_iff l .partitionedDML).mp ⟨s, hs, hk⟩; omega
  · intro h
    rcases Nat.lt_or_ge 0 (l.countP (fun s => getStatementKind s = .dml)) with h' | h'
    · obtain ⟨s, hs, hk⟩ := (exists_kind_iff l .dml).mpr h'
      exact ⟨s, hs, by simp [hk]⟩
    · have hc : 0 < l.countP (fun s => getStatementKind s = .partitionedDML) := by omega
      obtain ⟨s, hs, hk⟩ := (exists_kind_iff l .partitionedDML).mpr hc
      exact ⟨s, hs, by simp [hk]⟩

lemma length_pos_iff_ne_nil (l : List (List Char)) : l ≠ [] ↔ 0 < l.length := by
  cases l <;> simp

lemma inspect_ok_ddl_iff (l : List (List Char)) (d : Bool) :
    inspectStatementsKind l d = .ok .ddl ↔ ∀ s ∈ l, getStatementKind s = .ddl := by
  have hpart := kindCount_partition l
  simp only [inspectStatementsKind]
  split_ifs with h1 h2 h3 h4 <;>
    simp only [Except.ok.injEq, Except.error.injEq, reduceCtorEq, false_iff,
      true_iff, iff_false]
  · rw [← countP_kind_eq_length_iff]; omega
  all_goals
    intro hall
    have ha := (countP_kind_eq_length_iff l .ddl).mpr hall
    have hb : l.countP (fun s => getStatementKind s = .dml) = 0 := by
      rw [countP_kind_eq_zero_iff]; intro s hs h; rw [hall s hs] at h; cases h
    have hc : l.countP (fun s => getStatementKind s = .partitionedDML) = 0 := by
      rw [countP_kind_eq_zero_iff]; intro s hs h; rw [hall s hs] at h; cases h
    omega

lemma inspect_false_ok_dml_iff (l : List (List Char)) :
    inspectStatementsKind l false = .ok .dml ↔
      l ≠ [] ∧ ∀ s ∈ l, getStatementKind s ≠ .ddl := by
  have hpart := kindCount_partition l
  have hlen := length_pos_iff_ne_nil l
  simp only [inspectStatementsKind, not_true, not_false_iff, true_and, false_and,
    if_false, if_true, Bool.false_eq_true, Bool.true_eq_false, not_false_eq_true]
  split_ifs with h1 h2 <;>
    simp only [Except.ok.injEq, Except.error.injEq, reduceCtorEq, false_iff,
      true_iff, iff_false, not_and]
  · intro hne hall
    have ha := (countP_kind_eq_zero_iff l .ddl).mpr hall
    have := hlen.mp hne
    omega
  · constructor
    · rw [hlen]; omega
    · rw [← countP_kind_eq_zero_iff]; omega
  · intro hne hall
    have ha := (countP_kind_eq_zero_iff l .ddl).mpr hall
    have := hlen.mp hne
    omega

lemma inspect_false_ne_ok_pdml (l : List (List Char)) :
    inspectStatementsKind l false ≠ .ok .partitionedDML := by
  simp only [inspectStatementsKind, not_true, not_false_iff, true_and, false_and,
    if_false, if_true, Bool.false_eq_true, Bool.true_eq_false, not_false_eq_true]
  split_ifs <;> simp

lemma inspect_true_ok_dml_iff (l : List (List Char)) :
    inspectStatementsKind l true = .ok .dml ↔
      l ≠ [] ∧ ∀ s ∈ l, getStatementKind s = .dml := by
  have hpart := kindCount_partition l
  have hlen := length_pos_iff_ne_nil l
  simp only [inspectStatementsKind, not_true, not_false_iff, true_and, false_and,
    if_false, if_true, Bool.false_eq_true, Bool.true_eq_false, not_false_eq_true]
  split_ifs with h1 h2 h3 <;>
    simp only [Except.ok.injEq, Except.error.injEq, reduceCtorEq, false_iff,
      true_iff, iff_false, not_and]
  · intro hne hall
    have hb := (countP_kind_eq_length_iff l .dml).mpr hall
    have ha : l.countP (fun s => getStatementKind s = .ddl) = 0 := by
      rw [countP_kind_eq_zero_iff]; intro s hs h; rw [hall s hs] at h; cases h
    have := hlen.mp hne
    omega
  · constructor
    · rw [hlen]; omega
    · rw [← countP_kind_eq_length_iff]; omega
  · intro hne hall
    have hb := (countP_kind_eq_length_iff l .dml).mpr hall
    omega
  · intro hne hall
    have hb := (countP_kind_eq_length_iff l .dml).mpr hall
    have ha : l.countP (fun s => getStatementKind s = .ddl) = 0 := by
      rw [countP_kind_eq_zero_iff]; intro s hs h; rw [hall s hs] at h; cases h
    omega

lemma inspect_true_ok_pdml_iff (l : List (List Char)) :
    inspectStatementsKind l true = .ok .partitionedDML ↔
      l ≠ [] ∧ ∀ s ∈ l, getStatementKind s = .partitionedDML := by
  have hpart := kindCount_partition l
  have hlen := length_pos_iff_ne_nil l
  simp only [inspectStatementsKind, not_true, not_false_iff, true_and, false_and,
    if_false, if_true, Bool.false_eq_true, Bool.true_eq_false, not_false_eq_true]
  split_ifs with h1 h2 h3 <;>
    simp only [Except.ok.injEq, Except.error.injEq, reduceCtorEq, false_iff,
      true_iff, iff_false, not_and]
  · intro hne hall
    have hc := (countP_kind_eq_length_iff l .partitionedDML).mpr hall
    have ha : l.countP (fun s => getStatementKind s = .ddl) = 0 := by
      rw [countP_kind_eq_zero_iff]; intro s hs h; rw [hall s hs] at h; cases h
    have := hlen.mp hne
    omega
  · intro hne hall
    have hc := (countP_kind_eq_length_iff l .partitionedDML).mpr hall
    have hb : l.countP (fun s => getStatementKind s = .dml) = 0 := by
      rw [countP_kind_eq_zero_iff]; intro s hs h; rw [hall s hs] at h; cases h
    omega
  · constructor
    · rw [hlen]; omega
    · rw [← countP_kind_eq_length_iff]; omega
  · intro hne hall
    have hc := (countP_kind_eq_length_iff l .partitionedDML).mpr hall
    have ha : l.countP (fun s => getStatementKind s = .ddl) = 0 := by
      rw [countP_kind_eq_zero_iff]; intro s hs h; rw [hall s hs] at h; cases h
    omega

lemma inspect_false_error_iff (l : List (List Char)) :
    inspectStatementsKind l false = .error () ↔
      (∃ s ∈ l, getStatementKind s = .ddl) ∧ ∃ s ∈ l, getStatementKind s ≠ .ddl := by
  have hpart := kindCount_partition l
  rw [exists_kind_iff, exists_not_ddl_iff]
  simp only [inspectStatementsKind, not_true, not_false_iff, true_and, false_and,
    if_false, if_true, Bool.false_eq_true, Bool.true_eq_false, not_false_eq_true]
  split_ifs with h1 h2 <;>
    simp only [Except.ok.injEq, Except.error.injEq, reduceCtorEq, false_iff,
      true_iff, iff_false, not_and]
  all_goals omega

lemma inspect_true_error_iff (l : List (List Char)) :
    inspectStatementsKind l true = .error () ↔
      ((∃ s ∈ l, getStatementKind s = .ddl) ∧ ∃ s ∈ l, getStatementKind s ≠ .ddl) ∨
        ((∃ s ∈ l, getStatementKind s = .dml) ∧
          ∃ s ∈ l, getStatementKind s = .partitionedDML) := by
  have hpart := kindCount_partition l
  rw [exists_kind_iff, exists_kind_iff, exists_kind_iff, exists_not_ddl_iff]
  simp only [inspectStatementsKind, not_true, not_false_iff, true_and, false_and,
    if_false, if_true, Bool.false_eq_true, Bool.true_eq_false, not_false_eq_true]
  split_ifs with h1 h2 h3 <;>
    simp only [Except.ok.injEq, Except.error.injEq, reduceCtorEq, false_iff,
      true_iff, iff_false, not_and, not_or]
  all_goals omega

/-- C3: for every statement list, the file-level classifier returns DDL
exactly when all statements (or none) classify as DDL; with
`detect_partitioned = false` it returns DML exactly when the list is
non-empty and every statement classifies as DML or PartitionedDML (and it
never returns PartitionedDML); with `detect_partitioned = true` it returns
DML exactly when all statements are DML and PartitionedDML exactly when
all are PartitionedDML (list non-empty); every other combination fails
with the mixed-kinds error. -/
theorem inspectStatementsKind_characterization (statements : List (List Char)) :
    (∀ d : Bool, inspectStatementsKind statements d = .ok .ddl ↔
        ∀ s ∈ statements, getStatementKind s = .ddl) ∧
    (inspectStatementsKind statements false = .ok .dml ↔
        statements ≠ [] ∧ ∀ s ∈ statements, getStatementKind s ≠ .ddl) ∧
    inspectStatementsKind statements false ≠ .ok .partitionedDML ∧
    (inspectStatementsKind statements true = .ok .dml ↔
        statements ≠ [] ∧ ∀ s ∈ statements, getStatementKind s = .dml) ∧
    (inspectStatementsKind statements true = .ok .partitionedDML ↔
        statements ≠ [] ∧ ∀ s ∈ statements, getStatementKind s = .partitionedDML) ∧
    (inspectStatementsKind statements false = .error () ↔
        (∃ s ∈ statements, getStatementKind s = .ddl) ∧
          ∃ s ∈ statements, getStatementKind s ≠ .ddl) ∧
    (inspectStatementsKind statements true = .error () ↔
        ((∃ s ∈ statements, getStatementKind s = .ddl) ∧
            ∃ s ∈ statements, getStatementKind s ≠ .ddl) ∨
          ((∃ s ∈ statements, getStatementKind s = .dml) ∧
            ∃ s ∈ statements, getStatementKind s = .partitionedDML)) :=
  ⟨fun d => inspect_ok_ddl_iff statements d, inspect_false_ok_dml_iff statements,
   inspect_false_ne_ok_pdml statements, inspect_true_ok_dml_iff statements,
   inspect_true_ok_pdml_iff statements, inspect_false_error_iff statements,
   inspect_true_error_iff statements⟩

end Wrench
namespace Wrench

lemma insertByVersion_perm (m : Migration) (l : List Migration) :
    (insertByVersion m l).Perm (m :: l) := by
  induction l with
  | nil => exact List.Perm.refl _
  | cons x xs ih =>
    simp only [insertByVersion]
    split_ifs
    · exact List.Perm.refl _
    · exact (ih.cons x).trans (List.Perm.swap m x xs)

lemma sortByVersion_perm (l : List Migration) : (sortByVersion l).Perm l := by
  induction l with
  | nil => exact List.Perm.refl _
  | cons x xs ih =>
    simp only [sortByVersion, List.foldr_cons]
    exact (insertByVersion_perm x _).trans (ih.cons x)

lemma insertByVersion_sorted (m : Migration) (l : List Migration)
    (h : l.Pairwise (fun a b => a.version ≤ b.version)) :
    (insertByVersion m l).Pairwise (fun a b => a.version ≤ b.version) := by
  induction l with
  | nil => simp [insertByVersion]
  | cons x xs ih =>
    simp only [insertByVersion]
    rw [List.pairwise_cons] at h
    split_ifs with hle
    · rw [List.pairwise_cons]
      refine ⟨?_, List.Pairwise.cons h.1 h.2⟩
      intro b hb
      rcases List.mem_cons.mp hb with rfl | hb
      · exact hle
      · exact le_trans hle (h.1 b hb)
    · rw [List.pairwise_cons]
      refine ⟨?_, ih h.2⟩
      intro b hb
      rw [(insertByVersion_perm m xs).mem_iff] at hb
      rcases List.mem_cons.mp hb with rfl | hb
      · omega
      · exact h.1 b hb

lemma sortByVersion_sorted (l : List Migration) :
    (sortByVersion l).Pairwise (fun a b => a.version ≤ b.version) := by
  induction l with
  | nil => simp [sortByVersion]
  | cons x xs ih => exact insertByVersion_sorted x _ ih

lemma insertHistoryByVersion_perm (m : HistoryRow) (l : List HistoryRow) :
    (insertHistoryByVersion m l).Perm (m :: l) := by
  induction l with
  | nil => exact List.Perm.refl _
  | cons x xs ih =>
    simp only [insertHistoryByVersion]
    split_ifs
    · exact List.Perm.refl _
    · exact (ih.cons x).trans (List.Perm.swap m x xs)

lemma sortHistoryByVersion_perm (l : List HistoryRow) :
    (sortHistoryByVersion l).Perm l := by
  induction l with
  | nil => exact List.Perm.refl _
  | cons x xs ih =>
    simp only [sortHistoryByVersion, List.foldr_cons]
    exact (insertHistoryByVersion_perm x _).trans (ih.cons x)

lemma insertHistoryByVersion_sorted (m : HistoryRow) (l : List HistoryRow)
    (h : l.Pairwise (fun a b => a.version ≤ b.version)) :
    (insertHistoryByVersion m l).Pairwise (fun a b => a.version ≤ b.version) := by
  induction l with
  | nil => simp [insertHistoryByVersion]
  | cons x xs ih =>
    simp only [insertHistoryByVersion]
    rw [List.pairwise_cons] at h
    split_ifs with hle
    · rw [List.pairwise_cons]
      refine ⟨?_, List.Pairwise.cons h.1 h.2⟩
      intro b hb
      rcases List.mem_cons.mp hb with rfl | hb
      · exact hle
      · exact le_trans hle (h.1 b hb)
    · rw [List.pairwise_cons]
      refine ⟨?_, ih h.2⟩
      intro b hb
      rw [(insertHistoryByVersion_perm m xs).mem_iff] at hb
      rcases List.mem_cons.mp hb with rfl | hb
      · omega
      · exact h.1 b hb

lemma sortHistoryByVersion_sorted (l : List HistoryRow) :
    (sortHistoryByVersion l).Pairwise (fun a b => a.version ≤ b.version) := by
  induction l with
  | nil => simp [sortHistoryByVersion]
  | cons x xs ih => exact insertHistoryByVersion_sorted x _ ih

end Wrench
namespace Wrench

/-- C4: the migration list returned by `LoadMigrations` is strictly
increasing by version, and when two accepted files share a version the
loader fails with the duplicate-version error and returns no migrations. -/
theorem LoadMigrations_strictly_increasing :
    (∀ (files : List DirEntry) (toSkip : List Nat) (d : Bool) (ms : List Migration),
        LoadMigrations files toSkip d = .ok ms →
        ms.Pairwise (fun a b => a.version < b.version)) ∧
    (∀ (files : List DirEntry) (toSkip : List Nat) (d : Bool) (ms : List Migration),
        collectMigrations toSkip d files = .ok ms →
        ¬(ms.map (·.version)).Nodup →
        LoadMigrations files toSkip d = .error .duplicateVersion) := by
  constructor
  · intro files toSkip d ms h
    cases hcol : collectMigrations toSkip d files with
    | error e => simp [LoadMigrations, hcol, bind, Except.bind] at h
    | ok col =>
      rw [LoadMigrations, hcol] at h
      simp only [bind, Except.bind] at h
      split_ifs at h with hnd
      · cases h
        have hsorted := sortByVersion_sorted col
        have hne : (sortByVersion col).Pairwise (fun a b => a.version ≠ b.version) :=
          List.pairwise_map.mp hnd
        exact (hsorted.and hne).imp fun hab => lt_of_le_of_ne hab.1 hab.2
  · intro files toSkip d ms hcol hnd
    rw [LoadMigrations, hcol]
    simp only [bind, Except.bind]
    rw [if_neg]
    intro hnd'
    exact hnd (((sortByVersion_perm ms).map (·.version)).nodup_iff.mp hnd')

/-- C10: a migration file whose contents cannot be read, or whose leading
digit run overflows `uint64`, is silently skipped: loading the directory
with the file present gives the same result as loading it without the
file. -/
theorem LoadMigrations_skips_unreadable
    (pre post : List DirEntry) (toSkip : List Nat) (d : Bool) (bad : DirEntry)
    (hfile : bad.isDir = false)
    (digits nm : List Char)
    (hmatch : matchMigrationFileName bad.name = some (digits, nm))
    (hbad : bad.content = none ∨ 2 ^ 64 ≤ digitsToNat digits) :
    LoadMigrations (pre ++ bad :: post) toSkip d
      = LoadMigrations (pre ++ post) toSkip d := by
  have hcol : collectMigrations toSkip d (pre ++ bad :: post)
      = collectMigrations toSkip d (pre ++ post) := by
    induction pre with
    | nil =>
      simp only [List.nil_append, collectMigrations, hfile, hmatch]
      rcases hbad with hc | hv
      · split_ifs <;> simp [hc]
      · split_ifs <;> first | rfl | omega
    | cons f fs ih =>
      simp only [List.cons_append, collectMigrations, List.append_eq, ih]
  rw [LoadMigrations, LoadMigrations, hcol]

end Wrench
namespace Wrench

lemma keys_contains_iff_dirty (history : List HistoryRow)
    (hnodup : (history.map (·.version)).Nodup) (r : HistoryRow)
    (hr : r ∈ history) :
    (deleteDirtyHistory history).contains r.version = r.dirty := by
  show List.elem r.version (deleteDirtyHistory history) = r.dirty
  rw [List.elem_eq_mem]
  unfold deleteDirtyHistory
  by_cases hd : r.dirty = true
  · rw [hd]
    simp only [decide_eq_true_eq, List.mem_map]
    exact ⟨r, List.mem_filter.mpr ⟨hr, hd⟩, rfl⟩
  · have hd' : r.dirty = false := by simpa using hd
    rw [hd']
    simp only [decide_eq_false_iff_not, List.mem_map, not_exists]
    intro r' hcontra
    obtain ⟨hfmem, hv⟩ := hcontra
    have hmem := List.mem_of_mem_filter hfmem
    have : r' = r := List.inj_on_of_nodup_map hnodup hmem hr hv
    subst this
    have hdd := (List.mem_filter.mp hfmem).2
    rw [hd'] at hdd
    cases hdd

/-- C2: `RepairMigration` deletes exactly the dirty history rows and
resets the version table to the single row `(v, false)` where `v` is the
smallest version among the clean history rows; when no clean row exists it
fails and leaves both tables unchanged.  The hypothesis is the history
table's primary-key invariant (distinct versions). -/
theorem RepairMigration_spec (st : MigrationDb)
    (hnodup : (st.history.map (·.version)).Nodup) :
    (st.history.filter (fun r => !r.dirty) = [] →
        RepairMigration st = (st, some ())) ∧
    (st.history.filter (fun r => !r.dirty) ≠ [] →
        ∃ v0 : Int,
          (∃ r ∈ st.history.filter (fun r => !r.dirty), r.version = v0) ∧
          (∀ r ∈ st.history.filter (fun r => !r.dirty), v0 ≤ r.version) ∧
          RepairMigration st =
            ({ version := [{ version := v0, dirty := false }],
               history := st.history.filter (fun r => !r.dirty) }, none)) := by
  constructor
  · intro hclean
    unfold RepairMigration resetSchemaVersion
    rw [hclean]
    simp [sortHistoryByVersion]
  · intro hclean
    have hperm := sortHistoryByVersion_perm (st.history.filter (fun r => !r.dirty))
    have hsorted := sortHistoryByVersion_sorted (st.history.filter (fun r => !r.dirty))
    cases hs : sortHistoryByVersion (st.history.filter (fun r => !r.dirty)) with
    | nil =>
      rw [hs] at hperm
      exact absurd (hperm.symm.eq_nil) hclean
    | cons r0 rest =>
      refine ⟨r0.version, ?_, ?_, ?_⟩
      · refine ⟨r0, ?_, rfl⟩
        rw [hs] at hperm
        exact hperm.mem_iff.mp (List.mem_cons_self r0 rest)
      · intro r hr
        rw [hs] at hperm hsorted
        rcases List.mem_cons.mp (hperm.mem_iff.mpr hr) with rfl | hmem
        · exact le_refl _
        · exact (List.pairwise_cons.mp hsorted).1 r hmem
      · unfold RepairMigration resetSchemaVersion
        rw [hs]
        simp only [List.take_succ_cons, List.take_zero]
        have hfilter : st.history.filter
              (fun r => !(deleteDirtyHistory st.history).contains r.version)
            = st.history.filter (fun r => !r.dirty) := by
          apply List.filter_congr
          intro x hx
          rw [keys_contains_iff_dirty st.history hnodup x hx]
        rw [hfilter]
        rfl

end Wrench
namespace Wrench

/-- C6: when the current version row is dirty, `ExecuteMigrations` fails
with the dirty-migration error naming that version, reports no migration
as applied, and writes nothing to the version or history tables. -/
theorem ExecuteMigrations_dirty_fails_no_writes (env : ExecEnv)
    (migrations : List Migration) (limit partitionedConcurrency : Int)
    (st : MigrationDb) (v : Int) (rest : List VersionRow)
    (hver : st.version = { version := v, dirty := true } :: rest) :
    ExecuteMigrations env migrations limit partitionedConcurrency st
      = (st, [], .error (.migrationVersionDirty v)) := by
  simp [ExecuteMigrations, hver]

/-- Witness for C6 at a concrete dirty state. -/
theorem ExecuteMigrations_dirty_fails_no_writes_witness :
    ExecuteMigrations
        { applyDDL := fun _ => .ok (), applyDML := fun _ => .ok 0,
          applyPartitionedDML := fun _ _ => .ok 0, commitTs := 0 }
        [] (-1) 1
        { version := [{ version := 3, dirty := true }],
          history := [{ version := 3, dirty := true, created := 0, modified := 0 }] }
      = ({ version := [{ version := 3, dirty := true }],
           history := [{ version := 3, dirty := true, created := 0, modified := 0 }] },
         [], .error (.migrationVersionDirty 3)) :=
  ExecuteMigrations_dirty_fails_no_writes _ _ _ _ _ 3 [] rfl

/-- C8: when the lock table does not exist, `GetMigrationLock` returns a
successful lock whose release handle is the identity on the database
state, leaves the state unchanged, and reports no error. -/
theorem GetMigrationLock_missing_table_noop (now : Nat) (st : LockDb)
    (lockIdentifier : List Char) (h : st.tableExists = false) :
    GetMigrationLock now st lockIdentifier
      = ({ success := true, lockIdentifier := [], expiry := 0,
           release := fun s => s }, st, none) := by
  simp [GetMigrationLock, h]

/-- Witness for C8 at a concrete state without the lock table. -/
theorem GetMigrationLock_missing_table_noop_witness :
    GetMigrationLock 100 { tableExists := false, row := none } "op".toList
      = ({ success := true, lockIdentifier := [], expiry := 0,
           release := fun s => s }, { tableExists := false, row := none }, none) :=
  GetMigrationLock_missing_table_noop 100 _ _ rfl

/-- Witness for C2 at a concrete two-row history with one dirty row. -/
theorem RepairMigration_spec_witness :
    ∃ v0 : Int,
      (∃ r ∈ List.filter (fun r => !r.dirty)
          [({ version := 2, dirty := true, created := 0, modified := 0 } : HistoryRow),
           { version := 1, dirty := false, created := 0, modified := 0 }],
          r.version = v0) ∧
      (∀ r ∈ List.filter (fun r => !r.dirty)
          [({ version := 2, dirty := true, created := 0, modified := 0 } : HistoryRow),
           { version := 1, dirty := false, created := 0, modified := 0 }],
          v0 ≤ r.version) ∧
      RepairMigration
          { version := [{ version := 2, dirty := true }],
            history :=
              [{ version := 2, dirty := true, created := 0, modified := 0 },
               { version := 1, dirty := false, created := 0, modified := 0 }] }
        = ({ version := [{ version := v0, dirty := false }],
             history := List.filter (fun r => !r.dirty)
               [({ version := 2, dirty := true, created := 0, modified := 0 } : HistoryRow),
                { version := 1, dirty := false, created := 0, modified := 0 }] },
           none) :=
  (RepairMigration_spec
      { version := [{ version := 2, dirty := true }],
        history :=
          [{ version := 2, dirty := true, created := 0, modified := 0 },
           { version := 1, dirty := false, created := 0, modified := 0 }] }
      (by decide)).2 (by decide)

/-- Witness for C4 at concrete directories: a duplicate version fails, and
a well-formed directory loads in strictly increasing order. -/
theorem LoadMigrations_strictly_increasing_witness :
    LoadMigrations
        [{ name := "002_a.sql".toList, isDir := false, content := some "SELECT 1;".toList },
         { name := "002_b.sql".toList, isDir := false, content := some "SELECT 2;".toList }]
        [] false = .error .duplicateVersion ∧
      ∀ ms, LoadMigrations
          [{ name := "002_a.sql".toList, isDir := false, content := some "SELECT 1;".toList },
           { name := "001_b.sql".toList, isDir := false, content := some "SELECT 2;".toList }]
          [] false = .ok ms →
        ms.Pairwise (fun a b => a.version < b.version) :=
  ⟨LoadMigrations_strictly_increasing.2 _ _ _
      [{ version := 2, name := "a".toList, fileName := "002_a.sql".toList,
         statements := ["SELECT 1".toList], kind := .ddl, directives := {} },
       { version := 2, name := "b".toList, fileName := "002_b.sql".toList,
         statements := ["SELECT 2".toList], kind := .ddl, directives := {} }]
      (by rfl) (by decide),
   fun ms => LoadMigrations_strictly_increasing.1 _ _ _ ms⟩

/-- Witness for C10: an unreadable migration file is skipped and the rest
of the directory still loads. -/
theorem LoadMigrations_skips_unreadable_witness :
    LoadMigrations
        [{ name := "001_bad.sql".toList, isDir := false, content := none },
         { name := "002_ok.sql".toList, isDir := false, content := some "SELECT 1;".toList }]
        [] false
      = LoadMigrations
          [{ name := "002_ok.sql".toList, isDir := false, content := some "SELECT 1;".toList }]
          [] false :=
  LoadMigrations_skips_unreadable []
    [{ name := "002_ok.sql".toList, isDir := false, content := some "SELECT 1;".toList }]
    [] false _ rfl "001".toList "bad".toList (by rfl) (Or.inl rfl)

end Wrench
namespace Wrench

/-- C9 counterexample: on an empty directory with name `test`, interval 10
and zero-prefix length 6, the created file is not `000010_test.sql`. -/
theorem CreateMigrationFile_interval_cex :
    CreateMigrationFile [] "test".toList 10 6 ≠ Except.ok "000010_test.sql".toList := by
  decide

/-- C9 amended: on an empty directory the sequence starts at version 1, so
the created file is `000001_test.sql`; the interval only shapes later
versions. -/
theorem CreateMigrationFile_empty_dir_starts_at_one :
    CreateMigrationFile [] "test".toList 10 6 = Except.ok "000001_test.sql".toList := by
  rfl

/-- C7: the `parseMigrationDirectives` revision in the tree recognises
only the placeholder directive key, so a preamble carrying
`@wrench.Concurrency=3` fails with the unknown-directive error instead of
yielding a concurrency override — contradicting the package's own
directive tests. -/
theorem parseMigrationDirectives_concurrency_rejected :
    parseMigrationDirectives "-- @wrench.Concurrency=3\nSELECT 1 FROM Foo".toList
      = Except.error () := by
  rfl

/-- C1 counterexample: a `;` inside a line comment does split the
statement.  The loader turns `SELECT 1 -- c;D\n` into the two statements
`SELECT 1` and `D`, while the spec-side top-level tokenizer produces the
single statement `SELECT 1`. -/
theorem toStatements_splits_inside_comment_cex :
    toStatements "SELECT 1 -- c;D\n".toList
        = Except.ok ["SELECT 1".toList, "D".toList] ∧
      specTopLevelStatements "SELECT 1 -- c;D\n".toList
        = Except.ok ["SELECT 1".toList] :=
  ⟨rfl, rfl⟩

end Wrench
namespace Wrench

/-- Whether an `Except` is an error. -/
def exceptIsErr {ε α : Type} : Except ε α → Bool
  | .error _ => true
  | .ok _ => false

@[simp] lemma exceptIsErr_error {ε α : Type} (e : ε) :
    exceptIsErr (Except.error e : Except ε α) = true := rfl

@[simp] lemma exceptIsErr_ok {ε α : Type} (a : α) :
    exceptIsErr (Except.ok a : Except ε α) = false := rfl

@[simp] lemma exceptIsErr_map {ε α β : Type} (f : α → β) (x : Except ε α) :
    exceptIsErr (x.map f) = exceptIsErr x := by cases x <;> rfl

/-- Scanner mode denoted by the Go flag variables: `isInQuoted` takes
priority, then `isInSingleLineComment`, then `isInMultiLineComment`,
mirroring the order the loop consults them. -/
def modeOf (q slc mlc : Bool) (sq : Char) (esc triple : Bool) : ScanMode :=
  if q then .quoted sq triple esc
  else if slc then .lineComment
  else if mlc then .blockComment
  else .normal

/-- Flag states reachable by the loop: quoting and the two comment states
are mutually exclusive, and the escape flag is clear outside quotes. -/
def flagsOk (q slc mlc esc : Bool) : Prop :=
  (q = true → slc = false ∧ mlc = false) ∧ (slc = true → mlc = false) ∧
    (q = false → esc = false)

set_option maxHeartbeats 1600000 in
lemma step_sim (q slc mlc : Bool) (sq : Char) (esc triple : Bool)
    (c : Char) (rest : List Char) (hok : flagsOk q slc mlc esc) :
    match rcatStep q slc mlc sq esc triple c rest,
        goEscapeStep (modeOf q slc mlc sq esc triple) c rest with
    | .fail, .fail => True
    | .next _ skip q1 slc1 mlc1 sq1 esc1 triple1, .emit _ _ skip2 m1 =>
        skip = skip2 ∧ m1 = modeOf q1 slc1 mlc1 sq1 esc1 triple1 ∧
          flagsOk q1 slc1 mlc1 esc1
    | _, _ => False := by
  obtain ⟨hq, hslc, hesc⟩ := hok
  rcases rest with _ | ⟨c2, _ | ⟨c3, rest2⟩⟩ <;>
    cases q <;> cases slc <;> cases mlc <;>
    simp_all [rcatStep, goEscapeStep, modeOf, flagsOk, headIs] <;>
    split_ifs <;> simp_all

end Wrench
namespace Wrench
lemma step_sim_fail {q slc mlc : Bool} {sq : Char} {esc triple : Bool}
    {c : Char} {rest : List Char} (hok : flagsOk q slc mlc esc)
    (h : rcatStep q slc mlc sq esc triple c rest = .fail) :
    goEscapeStep (modeOf q slc mlc sq esc triple) c rest = .fail := by
  have hs := step_sim q slc mlc sq esc triple c rest hok
  rw [h] at hs
  cases hspec : goEscapeStep (modeOf q slc mlc sq esc triple) c rest <;> rw [hspec] at hs
  all_goals first | rfl | simp at hs

lemma step_sim_next {q slc mlc : Bool} {sq : Char} {esc triple : Bool}
    {c : Char} {rest w : List Char} {skip : Nat} {q1 slc1 mlc1 : Bool}
    {sq1 : Char} {esc1 triple1 : Bool} (hok : flagsOk q slc mlc esc)
    (h : rcatStep q slc mlc sq esc triple c rest
      = .next w skip q1 slc1 mlc1 sq1 esc1 triple1) :
    ∃ w2 ns, goEscapeStep (modeOf q slc mlc sq esc triple) c rest
        = .emit w2 ns skip (modeOf q1 slc1 mlc1 sq1 esc1 triple1) ∧
      flagsOk q1 slc1 mlc1 esc1 := by
  have hs := step_sim q slc mlc sq esc triple c rest hok
  rw [h] at hs
  cases hspec : goEscapeStep (modeOf q slc mlc sq esc triple) c rest <;> rw [hspec] at hs
  · simp at hs
  · obtain ⟨h1, h2, h3⟩ := hs
    exact ⟨_, _, by rw [← h1, h2], h3⟩

set_option maxHeartbeats 800000 in
lemma rcatLoop_isErr_eq (q slc mlc : Bool) (sq : Char) (esc triple : Bool)
    (input : List Char) :
    flagsOk q slc mlc esc →
    exceptIsErr (rcatLoop q slc mlc sq esc triple input)
      = goEscapeUnclosedLiteral (modeOf q slc mlc sq esc triple) input := by
  induction q, slc, mlc, sq, esc, triple, input using rcatLoop.induct <;> intro hok
  case case1 slc mlc sq esc triple =>
    simp [rcatLoop, goEscapeUnclosedLiteral, modeOf]
  case case2 q slc mlc sq esc triple hq =>
    cases q <;> cases slc <;> cases mlc <;>
      simp_all [rcatLoop, goEscapeUnclosedLiteral, modeOf]
  case case3 q slc mlc sq esc triple c rest heq =>
    have hspec := step_sim_fail hok heq
    simp [rcatLoop, goEscapeUnclosedLiteral, heq, hspec]
  all_goals (
    rename_i heq ih
    obtain ⟨w2, ns, hspec, hok1⟩ := step_sim_next hok heq
    simp only [rcatLoop, goEscapeUnclosedLiteral, heq, hspec, exceptIsErr_map]
    exact ih hok1)

end Wrench
namespace Wrench

/-- C5 counterexample: on the input `'''\'''` the tokenizer fails with an
unclosed-literal error, although by the spec's rules (backslash escaping
does not apply inside triple-quoted regions; only the triple delimiter
ends the literal) the triple-quoted literal closes and there is no
newline in a non-triple literal, so the spec-side failure predicate is
false.  The code carries its backslash escape into triple-quoted mode, so
the escaped quote is not considered as the start of the closing
delimiter and the input ends still inside the literal. -/
theorem removeCommentsAndTrim_escaped_triple_cex :
    exceptIsErr (removeCommentsAndTrim "'''\\'''".toList) = true ∧
      specUnclosedLiteral .normal "'''\\'''".toList = false :=
  ⟨rfl, rfl⟩

/-- C5 amended: `removeCommentsAndTrim` fails (its only error is the
unclosed-literal error) exactly when the input contains a newline or
carriage return inside a non-triple-quoted string literal or ends while
still inside a quoted region, where quoted regions are tracked with the
escape rule the code implements: a backslash pends an escape inside a
triple-quoted literal too, and a quote so escaped does not count as the
start of the closing triple delimiter.  On every other input it
succeeds. -/
theorem removeCommentsAndTrim_err_iff_unclosed (sql : List Char) :
    exceptIsErr (removeCommentsAndTrim sql) = goEscapeUnclosedLiteral .normal sql := by
  have h := rcatLoop_isErr_eq false false false (Char.ofNat 0) false false sql
    (by simp [flagsOk])
  simpa [removeCommentsAndTrim, modeOf] using h

end Wrench
namespace Wrench

lemma splitOnChar_no_sep (sep : Char) (l : List Char) :
    ∀ p ∈ splitOnChar sep l, sep ∉ p := by
  induction l with
  | nil => simp [splitOnChar]
  | cons c rest ih =>
    simp only [splitOnChar]
    split_ifs with hc
    · intro p hp
      rcases List.mem_cons.mp hp with rfl | hp
      · simp
      · exact ih p hp
    · intro p hp
      cases hs : splitOnChar sep rest with
      | nil =>
        rw [hs] at hp
        rcases List.mem_cons.mp hp with rfl | hp
        · simp only [List.mem_singleton]
          exact fun hcc => hc hcc.symm
        · simp at hp
      | cons piece pieces =>
        rw [hs] at hp
        rcases List.mem_cons.mp hp with rfl | hp
        · intro hmem
          rcases List.mem_cons.mp hmem with rfl | hmem
          · exact hc rfl
          · exact ih piece (hs ▸ List.mem_cons_self piece pieces) hmem
        · exact ih p (hs ▸ List.mem_cons_of_mem piece hp)

lemma rcatStep_written_all_eq {q slc mlc : Bool} {sq : Char} {esc triple : Bool}
    {c : Char} {rest w : List Char} {skip : Nat} {q1 slc1 mlc1 : Bool}
    {sq1 : Char} {esc1 triple1 : Bool}
    (h : rcatStep q slc mlc sq esc triple c rest
      = .next w skip q1 slc1 mlc1 sq1 esc1 triple1) :
    ∀ x ∈ w, x = c := by
  rcases rest with _ | ⟨c2, _ | ⟨c3, r2⟩⟩ <;> cases q <;> cases slc <;> cases mlc <;>
    simp_all [rcatStep, headIs] <;> split_ifs at h <;> simp_all <;>
    (try intro x hx) <;>
    (try (obtain ⟨hw, hr⟩ := h; subst hw)) <;>
    (try simp_all)

lemma rcatLoop_ok_subset (q slc mlc : Bool) (sq : Char) (esc triple : Bool)
    (input : List Char) :
    ∀ out, rcatLoop q slc mlc sq esc triple input = .ok out → ∀ x ∈ out, x ∈ input := by
  induction q, slc, mlc, sq, esc, triple, input using rcatLoop.induct
  case case1 =>
    intro out h
    simp [rcatLoop] at h
  case case2 =>
    intro out h
    simp_all [rcatLoop]
    try simp [← h]
  case case3 =>
    rename_i heq
    intro out h
    simp [rcatLoop, heq] at h
  all_goals (
    rename_i heq ih
    intro out h
    simp only [rcatLoop, heq, Except.map] at h
    split at h <;> cases h <;>
      (rename_i hrec
       intro x hx
       rcases List.mem_append.mp hx with hxw | hxo
       · rw [rcatStep_written_all_eq heq x hxw]
         exact List.mem_cons_self _ _
       · have hmem := ih _ hrec x hxo
         simp_all [List.mem_cons]))

end Wrench
namespace Wrench

lemma head?_dropWhile (p : Char → Bool) (l : List Char) :
    ∀ c, (l.dropWhile p).head? = some c → p c = false := by
  induction l with
  | nil => simp
  | cons x rest ih =>
    intro c hc
    rw [List.dropWhile_cons] at hc
    split_ifs at hc with hp
    · exact ih c hc
    · simp only [List.head?_cons, Option.some.injEq] at hc
      subst hc
      simpa using hp

lemma goTrimSpace_subset (l : List Char) : ∀ x ∈ goTrimSpace l, x ∈ l := by
  intro x hx
  unfold goTrimSpace at hx
  rw [List.mem_reverse] at hx
  have hx2 := (List.dropWhile_sublist goIsSpace).mem hx
  rw [List.mem_reverse] at hx2
  exact (List.dropWhile_sublist goIsSpace).mem hx2

lemma goTrimSpace_getLast_not_space (l : List Char) :
    ∀ c, (goTrimSpace l).getLast? = some c → goIsSpace c = false := by
  intro c hc
  unfold goTrimSpace at hc
  rw [List.getLast?_reverse] at hc
  exact head?_dropWhile goIsSpace _ c hc

lemma goTrimSpace_head_not_space (l : List Char) :
    ∀ c, (goTrimSpace l).head? = some c → goIsSpace c = false := by
  intro c hc
  unfold goTrimSpace at hc
  rw [List.head?_reverse] at hc
  obtain ⟨t, ht⟩ := List.dropWhile_suffix (l := (l.dropWhile goIsSpace).reverse) goIsSpace
  have hAr : (l.dropWhile goIsSpace).reverse.getLast? = some c := by
    rw [← ht, List.getLast?_append, hc]
    rfl
  rw [List.getLast?_reverse] at hAr
  exact head?_dropWhile goIsSpace l c hAr

lemma stripTrailingSemicolon_of_not_mem (l : List Char) (h : ';' ∉ l) :
    stripTrailingSemicolon l = l := by
  unfold stripTrailingSemicolon
  rw [if_neg]
  intro hlast
  exact h (List.mem_of_mem_getLast? hlast)

lemma toStatements_go_mem (pieces : List (List Char)) (sts : List (List Char))
    (h : toStatements.go pieces = .ok sts) :
    ∀ st ∈ sts, st ≠ [] ∧ ∃ piece ∈ pieces, removeCommentsAndTrim piece = .ok st := by
  induction pieces generalizing sts with
  | nil =>
    simp only [toStatements.go] at h
    cases h
    simp
  | cons piece pieces ih =>
    simp only [toStatements.go, bind, Except.bind] at h
    cases hrc : removeCommentsAndTrim piece with
    | error e => rw [hrc] at h; cases h
    | ok s =>
      rw [hrc] at h
      cases hgo : toStatements.go pieces with
      | error e => rw [hgo] at h; cases h
      | ok rest =>
        rw [hgo] at h
        simp only [pure, Except.pure, Except.ok.injEq] at h
        subst h
        intro st hst
        split_ifs at hst with hs
        · obtain ⟨hne, p, hp, hrcp⟩ := ih rest hgo st hst
          exact ⟨hne, p, List.mem_cons_of_mem piece hp, hrcp⟩
        · rcases List.mem_cons.mp hst with rfl | hst
          · exact ⟨hs, piece, List.mem_cons_self piece pieces, hrc⟩
          · obtain ⟨hne, p, hp, hrcp⟩ := ih rest hgo st hst
            exact ⟨hne, p, List.mem_cons_of_mem piece hp, hrcp⟩

end Wrench
namespace Wrench

/-- C1 amended: `toStatements` splits the file at every `;` byte before
comment stripping, trims each piece and discards empty pieces, so every
returned statement is non-empty, contains no `;` at all (even one that was
inside a quoted string or comment in the source file), and carries no
leading or trailing whitespace. -/
theorem toStatements_statements_semicolon_free_trimmed (file : List Char)
    (sts : List (List Char)) (h : toStatements file = .ok sts) :
    ∀ st ∈ sts, st ≠ [] ∧ ';' ∉ st ∧
      (∀ c, st.head? = some c → goIsSpace c = false) ∧
      (∀ c, st.getLast? = some c → goIsSpace c = false) := by
  intro st hst
  obtain ⟨hne, piece, hpiece, hrc⟩ := toStatements_go_mem _ _ h st hst
  have hnosemi : ';' ∉ piece := splitOnChar_no_sep ';' file piece hpiece
  unfold removeCommentsAndTrim at hrc
  cases hloop : rcatLoop false false false (Char.ofNat 0) false false piece with
  | error e => rw [hloop] at hrc; cases hrc
  | ok res =>
    rw [hloop] at hrc
    simp only [Except.map, Except.ok.injEq] at hrc
    have hres : ';' ∉ res := fun hmem =>
      hnosemi (rcatLoop_ok_subset _ _ _ _ _ _ _ _ hloop ';' hmem)
    have htrim : ';' ∉ goTrimSpace res := fun hmem =>
      hres (goTrimSpace_subset res ';' hmem)
    rw [stripTrailingSemicolon_of_not_mem _ htrim] at hrc
    subst hrc
    exact ⟨hne, htrim, goTrimSpace_head_not_space res,
      goTrimSpace_getLast_not_space res⟩

/-- Witness for the amended C1 at the concrete file `A;B`. -/
theorem toStatements_statements_semicolon_free_trimmed_witness :
    "A".toList ≠ [] ∧ ';' ∉ "A".toList ∧
      (∀ c, "A".toList.head? = some c → goIsSpace c = false) ∧
      (∀ c, "A".toList.getLast? = some c → goIsSpace c = false) :=
  toStatements_statements_semicolon_free_trimmed "A;B".toList
    ["A".toList, "B".toList] rfl "A".toList (by decide)

end Wrench
